import Mathlib

/-
  Verification development for scripts/latest-bill-text.py.

  The Python script is shallowly embedded below:
  * Python datetime values are modeled by PyDateTime: an integer instant
    (seconds; for naive values the wall-clock seconds since the epoch, for
    aware values the UTC instant) together with an awareness flag.  Python
    order comparison between a naive and an aware datetime raises TypeError;
    this is modeled by pyGT returning Except.error.  Equality between a
    naive and an aware datetime returns False in Python; pyEQ models that.
  * datetime.fromisoformat is modeled for the grammar the script exercises:
    YYYY-MM-DD, optionally followed by a one-character separator and
    HH[:MM[:SS]], optionally followed by an offset +HH:MM or -HH:MM.
    Fractional seconds are not modeled (no claim concerns them).
  * File-system paths are lists of path segments (pathlib .parts).
  * Parsed mods.xml documents are abstracted to the three extracted fields
    the script reads from them (date text, identifier, url map); parse
    success/failure at each candidate location is input data.
  * A data.json file on disk is Option Desc: some desc when the file parses,
    none when the file exists but json.load fails.
  * Directory renames (shutil.move of a directory) are whole-tree moves;
    rmtree removes a whole tree.  States of the publish phase are observed
    after each file-system operation.
-/

namespace LBT

instance {ε α : Type} [DecidableEq ε] [DecidableEq α] : DecidableEq (Except ε α) :=
  fun a b =>
    match a, b with
    | .error x, .error y =>
      if h : x = y then .isTrue (by rw [h]) else .isFalse (by simp [h])
    | .ok x, .ok y =>
      if h : x = y then .isTrue (by rw [h]) else .isFalse (by simp [h])
    | .error _, .ok _ => .isFalse (by simp)
    | .ok _, .error _ => .isFalse (by simp)

/-- Model of a Python datetime: seconds instant plus tz-awareness flag. -/
structure PyDateTime where
  instant : Int
  aware : Bool
deriving DecidableEq

/-- Python datetime order comparison a > b: raises TypeError (modeled as
Except.error) when exactly one side is timezone-aware. -/
def pyGT (a b : PyDateTime) : Except Unit Bool :=
  if a.aware ≠ b.aware then .error () else .ok (a.instant > b.instant)

/-- Python datetime equality a == b: mixed naive/aware compares unequal
instead of raising. -/
def pyEQ (a b : PyDateTime) : Bool :=
  if a.aware ≠ b.aware then false else a.instant == b.instant

/-- mtime_dt (script lines 28-32): datetime.fromtimestamp(mtime, tz=utc),
always timezone-aware.  The OSError fallback to timestamp 0 is handled by
the caller supplying the timestamp; stat never fails in the model. -/
def mtime_dt (t : Int) : PyDateTime :=
  ⟨t, true⟩

/-- Numeric value of a decimal digit character. -/
def digitVal (c : Char) : Option Nat :=
  if c.isDigit then some (c.toNat - 48) else none

/-- Read exactly n decimal digits, returning their value and the rest. -/
def readDigits : Nat → Nat → List Char → Option (Nat × List Char)
  | 0, acc, cs => some (acc, cs)
  | _ + 1, _, [] => none
  | n + 1, acc, c :: cs =>
    match digitVal c with
    | some d => readDigits n (acc * 10 + d) cs
    | none => none

/-- Consume one expected character. -/
def expectChar (c : Char) : List Char → Option (List Char)
  | [] => none
  | x :: rest => if x = c then some rest else none

def isLeap (y : Nat) : Bool :=
  (y % 4 == 0 && y % 100 != 0) || y % 400 == 0

def daysInMonth (y m : Nat) : Nat :=
  if m = 2 then (if isLeap y then 29 else 28)
  else if m = 4 ∨ m = 6 ∨ m = 9 ∨ m = 11 then 30
  else 31

/-- Days since 1970-01-01 of the civil date y-m-d (Howard Hinnant's
days_from_civil; all divisions act on non-negative operands for y ≥ 1). -/
def daysFromCivil (y m d : Nat) : Int :=
  let yAdj : Int := if m ≤ 2 then (y : Int) - 1 else (y : Int)
  let era : Int := (if 0 ≤ yAdj then yAdj else yAdj - 399) / 400
  let yoe : Int := yAdj - era * 400
  let mp : Int := ((m : Int) + 9) % 12
  let doy : Int := (153 * mp + 2) / 5 + (d : Int) - 1
  let doe : Int := yoe * 365 + yoe / 4 - yoe / 100 + doy
  era * 146097 + doe - 719468

/-- Seconds since the epoch of a civil date-time taken at UTC offset 0. -/
def epochSecs (y m d hh mi ss : Nat) : Int :=
  86400 * daysFromCivil y m d + 3600 * (hh : Int) + 60 * (mi : Int) + (ss : Int)

/-- Civil date (year, month, day) of a days-since-epoch count (Howard
Hinnant's civil_from_days). -/
def civilFromDays (z0 : Int) : Int × Nat × Nat :=
  let z := z0 + 719468
  let era : Int := (if 0 ≤ z then z else z - 146096) / 146097
  let doe : Int := z - era * 146097
  let yoe : Int := (doe - doe / 1460 + doe / 36524 - doe / 146096) / 365
  let doy : Int := doe - (365 * yoe + yoe / 4 - yoe / 100)
  let mp : Int := (5 * doy + 2) / 153
  let d : Int := doy - (153 * mp + 2) / 5 + 1
  let m : Int := if mp < 10 then mp + 3 else mp - 9
  (if m ≤ 2 then yoe + era * 400 + 1 else yoe + era * 400, m.toNat, d.toNat)

/-- Left-pad the decimal form of n with zeros to width w. -/
def zfill (n : Nat) (w : Nat) : String :=
  let s := toString n
  ⟨List.replicate (w - s.data.length) '0' ++ s.data⟩

/-- date().isoformat() of an aware datetime built from a POSIX timestamp:
the UTC calendar date, YYYY-MM-DD. -/
def dateIso (t : Int) : String :=
  let days := Int.fdiv t 86400
  let c := civilFromDays days
  zfill c.1.toNat 4 ++ "-" ++ zfill c.2.1 2 ++ "-" ++ zfill c.2.2 2

/-- Parse the date part YYYY-MM-DD with calendar validity checks
(Python's date constructor enforces 1 ≤ month ≤ 12 and valid day). -/
def readDate (cs : List Char) : Option ((Nat × Nat × Nat) × List Char) := do
  let (y, r1) ← readDigits 4 0 cs
  let r2 ← expectChar '-' r1
  let (m, r3) ← readDigits 2 0 r2
  let r4 ← expectChar '-' r3
  let (d, r5) ← readDigits 2 0 r4
  if 1 ≤ y ∧ 1 ≤ m ∧ m ≤ 12 ∧ 1 ≤ d ∧ d ≤ daysInMonth y m then
    pure ((y, m, d), r5)
  else none

/-- Parse the time part HH[:MM[:SS]]. -/
def readTime (cs : List Char) : Option ((Nat × Nat × Nat) × List Char) := do
  let (hh, r1) ← readDigits 2 0 cs
  if hh ≤ 23 then
    match expectChar ':' r1 with
    | none => pure ((hh, 0, 0), r1)
    | some r2 => do
      let (mi, r3) ← readDigits 2 0 r2
      if mi ≤ 59 then
        match expectChar ':' r3 with
        | none => pure ((hh, mi, 0), r3)
        | some r4 => do
          let (ss, r5) ← readDigits 2 0 r4
          if ss ≤ 59 then pure ((hh, mi, ss), r5) else none
      else none
  else none

/-- Parse an optional UTC offset +HH:MM or -HH:MM, in minutes. -/
def readOffset (cs : List Char) : Option (Option Int × List Char) :=
  match cs with
  | [] => some (none, [])
  | c :: rest =>
    if c = '+' ∨ c = '-' then do
      let (oh, r1) ← readDigits 2 0 rest
      let r2 ← expectChar ':' r1
      let (om, r3) ← readDigits 2 0 r2
      if oh ≤ 23 ∧ om ≤ 59 then
        let mins : Int := (oh : Int) * 60 + (om : Int)
        pure (some (if c = '-' then -mins else mins), r3)
      else none
    else none

/-- datetime.fromisoformat on the modeled grammar.  A date-only or
offset-free result is naive (aware := false); an explicit offset yields an
aware value normalized to its UTC instant. -/
def fromisoformat (s : String) : Option PyDateTime := do
  let ((y, m, d), r1) ← readDate s.data
  match r1 with
  | [] => pure ⟨epochSecs y m d 0 0 0, false⟩
  | _sep :: r2 => do
    let ((hh, mi, ss), r3) ← readTime r2
    let (off, r4) ← readOffset r3
    if r4 = [] then
      let base := epochSecs y m d hh mi ss
      match off with
      | none => pure ⟨base, false⟩
      | some o => pure ⟨base - o * 60, true⟩
    else none

/-- s.split(sep-char) of Python, over character lists. -/
def splitOnChar (sep : Char) (cs : List Char) : List (List Char) :=
  match cs with
  | [] => [[]]
  | c :: rest =>
    let r := splitOnChar sep rest
    if c = sep then [] :: r
    else
      match r with
      | [] => [[c]]
      | h :: t => (c :: h) :: t

/-- parse_date (script lines 14-25).  The argument is the raw json value:
none models both an absent value and a non-string value (the isinstance
test in the source); the empty string is falsy in Python and also yields
None.  First attempt: fromisoformat after rewriting a trailing "Z" to
"+00:00"; on failure, fromisoformat of the text before the first "T"; on
failure, None. -/
def parse_date (s : Option String) : Option PyDateTime :=
  match s with
  | none => none
  | some s =>
    if s = "" then none
    else
      let attempt1 :=
        if s.data.getLast? = some 'Z' then
          fromisoformat ⟨s.data.dropLast ++ "+00:00".data⟩
        else fromisoformat s
      match attempt1 with
      | some d => some d
      | none => fromisoformat ⟨((splitOnChar 'T' s.data).headD s.data)⟩

/-- key_from_path (script lines 35-44): anchor on the first "bills" path
segment; require a segment before it and two after it; return the string
congress/bill_type/bill_id. -/
def key_from_path (parts : List String) : Option String :=
  if "bills" ∈ parts then
    let bi := parts.indexOf "bills"
    if 1 ≤ bi ∧ bi + 2 < parts.length then
      some (parts.getD (bi - 1) "" ++ "/" ++ parts.getD (bi + 1) "" ++ "/" ++
            parts.getD (bi + 2) "")
    else none
  else none

/-- Python int(s) on a string: optional surrounding whitespace, optional
sign, then decimal digits (digit-group underscores are not modeled). -/
def pyInt (s : String) : Option Int :=
  let cs := s.data.dropWhile (· = ' ')
  let cs := (cs.reverse.dropWhile (· = ' ')).reverse
  let (neg, ds) :=
    match cs with
    | '-' :: rest => (true, rest)
    | '+' :: rest => (false, rest)
    | _ => (false, cs)
  if ds ≠ [] ∧ ds.all Char.isDigit then
    let n : Nat := ds.foldl (fun acc c => acc * 10 + (c.toNat - 48)) 0
    some (if neg then -(n : Int) else (n : Int))
  else none

/-- Lower-case a string character-wise (str.lower for ASCII data). -/
def lowerStr (s : String) : String :=
  ⟨s.data.map Char.toLower⟩

/-- re.match of ([a-z]+)(\d+) at the start of a string: the leading
lower-case-letter run followed by a digit run, both non-empty. -/
def leadingAlphaDigits (s : String) : Option (String × String) :=
  let al := s.data.takeWhile (fun c => 'a' ≤ c ∧ c ≤ 'z')
  let rest := s.data.drop al.length
  let ds := rest.takeWhile Char.isDigit
  if al ≠ [] ∧ ds ≠ [] then some (⟨al⟩, ⟨ds⟩) else none

/-- re.search of (\d+): the first maximal digit run anywhere in a string. -/
def firstDigitRun : List Char → Option String
  | [] => none
  | c :: rest =>
    if c.isDigit then some ⟨c :: rest.takeWhile Char.isDigit⟩
    else firstDigitRun rest

/-- str(int(digits)): strip leading zeros from a non-empty digit run. -/
def normNum (digits : String) : String :=
  toString (digits.data.foldl (fun acc c => acc * 10 + (c.toNat - 48)) 0)

/-- The body of synthesize_bill_id_from_path after the path segments are
extracted (script lines 177-203): congress_raw = segment before "bills"
(raw), billType = segment after "bills" (lower-cased), billDir = second
segment after "bills" (lower-cased), extras = raw segments
parts[bi+2 : bi+6].  Error messages are abbreviated. -/
def synthCore (congressRaw billType billDir : String) (extras : List String) :
    Except String String :=
  match leadingAlphaDigits billDir with
  | some (bt, num) =>
    match pyInt congressRaw with
    | some cong => .ok (lowerStr (bt ++ normNum num ++ "-" ++ toString cong))
    | none => .error "invalid literal for int"
  | none =>
    match firstDigitRun billDir.data with
    | some num =>
      let bt := if billType = "" then "hr" else billType
      match pyInt congressRaw with
      | some cong => .ok (lowerStr (bt ++ normNum num ++ "-" ++ toString cong))
      | none => .error "invalid literal for int"
    | none =>
      let rec scan : List String → Except String String
        | [] => .error "Unable to synthesize bill_id from path"
        | e :: es =>
          match firstDigitRun e.data with
          | some num =>
            let bt := if billType = "" then "hr" else billType
            match pyInt congressRaw with
            | some cong =>
              .ok (lowerStr (bt ++ normNum num ++ "-" ++ toString cong))
            | none => .error "invalid literal for int"
          | none => scan es
      scan extras

/-- synthesize_bill_id_from_path (script lines 156-203): anchor on the
first "bills" segment, then derive the canonical bill id from the
surrounding segments. -/
def synthesize_bill_id_from_path (parts : List String) : Except String String :=
  if "bills" ∈ parts then
    let bi := parts.indexOf "bills"
    if bi < 1 ∨ parts.length ≤ bi + 2 then
      .error "Failed to parse path for bill_id"
    else
      synthCore (parts.getD (bi - 1) "") (lowerStr (parts.getD (bi + 1) ""))
        (lowerStr (parts.getD (bi + 2) ""))
        ((parts.drop (bi + 2)).take 4)
  else .error "Cannot synthesize bill_id"

/-- A parsed mods.xml document, abstracted to the three pieces of
information the script extracts from it (find_date_in_mods,
find_identifier_in_mods, extract_urls_from_mods). -/
structure ModsDoc where
  dateText : Option String
  identifier : Option String
  urls : List (String × String)
deriving DecidableEq

/-- The mods.xml candidates visible from one text-version directory.
direct: none when tv/mods.xml does not exist, some r when it exists and
parses to r (r = none on parse failure).  nested: parse results of the
mods.xml files found one level down inside sub-directories, in iteration
order.  recursive: parse results of the mods.xml files found by
tv.rglob("mods.xml"), in iteration order.  archived: parse results of
archive members whose name ends in mods.xml; the script never reads these,
the field exists to state the specification's stage (d). -/
structure TVSearch where
  direct : Option (Option ModsDoc)
  nested : List (Option ModsDoc)
  recursive : List (Option ModsDoc)
  archived : List (Option ModsDoc)
deriving DecidableEq

/-- First successful parse in a list of parse results. -/
def firstParsed : List (Option ModsDoc) → Option ModsDoc
  | [] => none
  | d :: rest =>
    match d with
    | some m => some m
    | none => firstParsed rest

/-- The mods.xml search of ensure_data_jsons (script lines 218-237):
direct file, then sub-directories one level down, then recursive search;
each stage runs only when the previous stages produced no parse. -/
def codeFindMods (t : TVSearch) : Option ModsDoc :=
  let m0 : Option ModsDoc :=
    match t.direct with
    | some r => r
    | none => none
  let m1 :=
    match m0 with
    | some m => some m
    | none => firstParsed t.nested
  match m1 with
  | some m => some m
  | none => firstParsed t.recursive

/-- Modelled from the spec: the four-stage search the specification
describes, stages (a)-(c) as in the code followed by stage (d), a document
embedded inside an archive member whose name ends in the descriptor-source
filename.  Defined only to compare the code against the claim. -/
def specFindMods (t : TVSearch) : Option ModsDoc :=
  match codeFindMods t with
  | some m => some m
  | none => firstParsed t.archived

/-- One data.json descriptor, with exactly the fields the script reads or
writes.  An absent urls mapping and an empty one are conflated (the script
never reads urls back). -/
structure Desc where
  issued_on : Option String
  issued : Option String
  date : Option String
  version_code : String
  bill_version_id : Option String
  bill_id : Option String
  bill_id_source : Option String
  urls : List (String × String)
deriving DecidableEq

/-- One text-version directory of the input tree.  parts: the directory
path segments.  eligible: the directory matches the ensure_data_jsons glob
`*/bills/*/*/text-versions/*` (rglob in the gather step also sees deeper
matches, so gathering is keyed on dataFile alone).  dataFile: none when no
data.json exists; some none when it exists but json.load fails; some
(some d) when it parses.  mtimeFile: mtime of the data.json file;
mtimeDir: mtime of the directory. -/
structure TV where
  parts : List String
  eligible : Bool
  dataFile : Option (Option Desc)
  mtimeFile : Int
  mtimeDir : Int
  search : TVSearch
deriving DecidableEq

def tvName (tv : TV) : String := tv.parts.getLastD ""

/-- Python truthiness of an optional string: empty and absent are falsy. -/
def truthyOpt (s : Option String) : Option String :=
  match s with
  | some s => if s = "" then none else some s
  | none => none

/-- The descriptor ensure_data_jsons synthesizes for a text-version
directory lacking data.json (script lines 218-271). -/
def synthesizeDesc (tv : TV) : Desc :=
  let mods := codeFindMods tv.search
  let issuedRaw : Option String :=
    match mods with
    | some m => m.dateText
    | none => none
  let issued : String :=
    match truthyOpt issuedRaw with
    | some s => s
    | none => dateIso tv.mtimeDir
  let versionId :=
    match mods with
    | some m => truthyOpt m.identifier
    | none => none
  let billId :=
    match synthesize_bill_id_from_path tv.parts with
    | .ok b => some b
    | .error _ => none
  { issued_on := some issued
    issued := none
    date := none
    version_code := tvName tv
    bill_version_id := versionId
    bill_id := billId
    bill_id_source := if billId.isSome then some "path" else none
    urls :=
      match mods with
      | some m => m.urls
      | none => [] }

/-- One step of ensure_data_jsons: skip directories that already have a
data.json, write the synthesized descriptor otherwise (the write gets the
current time now as file mtime).  Returns the updated directory and the
created-count contribution. -/
def ensureOne (now : Int) (tv : TV) : TV × Nat :=
  if tv.eligible ∧ tv.dataFile = none then
    ({ tv with dataFile := some (some (synthesizeDesc tv)), mtimeFile := now }, 1)
  else (tv, 0)

/-- ensure_data_jsons over the whole input tree (script lines 209-282). -/
def ensureAll (now : Int) (tvs : List TV) : List TV × Nat :=
  (tvs.map (fun tv => (ensureOne now tv).1),
   (tvs.map (fun tv => (ensureOne now tv).2)).sum)

/-- obj.get("issued_on") or obj.get("issued") or obj.get("date"): the
first truthy value.  When every value is falsy Python hands the last falsy
value to parse_date, which maps it to None exactly as none does. -/
def firstTruthy : List (Option String) → Option String
  | [] => none
  | s :: rest =>
    match truthyOpt s with
    | some v => some v
    | none => firstTruthy rest

/-- The primary date of a candidate (script lines 313-322): the parsed
descriptor date, degrading to the data.json file mtime when the file is
missing or malformed or the date string does not parse. -/
def dtPrimary (tv : TV) : PyDateTime :=
  match tv.dataFile with
  | some (some d) =>
    match parse_date (firstTruthy [d.issued_on, d.issued, d.date]) with
    | some x => x
    | none => mtime_dt tv.mtimeFile
  | _ => mtime_dt tv.mtimeFile

/-- The running best of the selection loop: (dt_primary, tie, path). -/
abbrev SelAcc := PyDateTime × PyDateTime × TV

/-- One iteration of the selection loop (script lines 312-326):
best is replaced when cand.0 > best.0, or cand.0 == best.0 and
cand.1 > best.1; the order comparisons can raise TypeError. -/
def selStep (best : Option SelAcc) (p : TV) : Except Unit (Option SelAcc) :=
  let cand : SelAcc := (dtPrimary p, mtime_dt p.mtimeFile, p)
  match best with
  | none => .ok (some cand)
  | some b =>
    match pyGT cand.1 b.1 with
    | .error e => .error e
    | .ok true => .ok (some cand)
    | .ok false =>
      if pyEQ cand.1 b.1 then
        match pyGT cand.2.1 b.2.1 with
        | .error e => .error e
        | .ok true => .ok (some cand)
        | .ok false => .ok (some b)
      else .ok (some b)

/-- The selection over one bill group. -/
def selGroup (g : List TV) : Except Unit (Option TV) :=
  match g.foldlM selStep none with
  | .error e => .error e
  | .ok r => .ok (r.map fun a => a.2.2)

/-- groups.setdefault(k, []).append(p): append to the group of key k,
creating it at the end on first sight. -/
def addToGroups (gs : List (String × List TV)) (k : String) (tv : TV) :
    List (String × List TV) :=
  match gs with
  | [] => [(k, [tv])]
  | (k', l) :: rest =>
    if k' = k then (k', l ++ [tv]) :: rest else (k', l) :: addToGroups rest k tv

/-- Grouping of the gathered data.json files by bill key (script lines
295-304); paths that key_from_path rejects are counted as skipped.  The
key is computed on the data.json file path, i.e. the directory path plus
the file name. -/
def groupsOf (files : List TV) : List (String × List TV) × Nat :=
  files.foldl
    (fun acc tv =>
      match key_from_path (tv.parts ++ ["data.json"]) with
      | some k => (addToGroups acc.1 k tv, acc.2)
      | none => (acc.1, acc.2 + 1))
    ([], 0)

/-- Lexicographic strict order on character lists by code point, the order
Python uses on strings. -/
def listLtB : List Char → List Char → Bool
  | [], [] => false
  | [], _ :: _ => true
  | _ :: _, [] => false
  | a :: as, b :: bs =>
    if a.toNat < b.toNat then true
    else if b.toNat < a.toNat then false
    else listLtB as bs

def strLeB (a b : String) : Bool := !(listLtB b.data a.data)

def insertBy {α : Type} (le : α → α → Bool) (x : α) : List α → List α
  | [] => [x]
  | y :: ys => if le x y then x :: y :: ys else y :: insertBy le x ys

/-- Stable insertion sort, modeling Python sorted(...). -/
def sortBy {α : Type} (le : α → α → Bool) : List α → List α
  | [] => []
  | x :: xs => insertBy le x (sortBy le xs)

/-- for key in sorted(groups.keys()): iterate the groups by key order. -/
def sortGroups (gs : List (String × List TV)) : List (String × List TV) :=
  sortBy (fun a b => strLeB a.1 b.1) gs

/-- The selection over all groups in key order; the first TypeError aborts
everything (it propagates out of the loop). -/
def selectAll (gs : List (String × List TV)) :
    Except Unit (List (String × TV)) :=
  gs.foldlM
    (fun acc kg =>
      match selGroup kg.2 with
      | .error e => .error e
      | .ok (some w) => .ok (acc ++ [(kg.1, w)])
      | .ok none => .ok acc)
    []

/-- key.split("/", 2). -/
def pySplit2 (k : String) : String × String × String :=
  match splitOnChar '/' k.data with
  | a :: b :: rest => (⟨a⟩, ⟨b⟩, String.intercalate "/" (rest.map fun r => ⟨r⟩))
  | [a] => (⟨a⟩, "", "")
  | [] => ("", "", "")

/-- A staged or published output tree: file paths with the copied data.json
contents (the copy of a malformed source file stays malformed). -/
abbrev Tree := List (String × Option Desc)

/-- The scratch tree the staging loop builds: one
congress/bills/bill_type/bill_id/data.json entry per winner (script lines
327-334). -/
def stageEntries (ws : List (String × TV)) : Tree :=
  ws.map fun kw =>
    let s := pySplit2 kw.1
    (s.1 ++ "/bills/" ++ s.2.1 ++ "/" ++ s.2.2 ++ "/data.json",
     kw.2.dataFile.getD none)

/-- The three directory slots the publish phase manipulates. -/
structure PubState where
  published : Option Tree
  backup : Option Tree
  tmp : Option Tree
deriving DecidableEq

/-- The completed swap (script lines 343-352): when a published tree
exists, remove any stale backup, move the published tree to the backup,
move the scratch tree in, then remove the backup; otherwise just move the
scratch tree in (the final backup removal is guarded by "backup" in
locals(), so a stale backup survives when no published tree existed). -/
def doSwap (s : PubState) : PubState :=
  match s.published with
  | some _ => { published := s.tmp, backup := none, tmp := none }
  | none => { published := s.tmp, backup := s.backup, tmp := none }

structure World where
  tvs : List TV
  pub : PubState
deriving DecidableEq

/-- Result of one run: a successful publish (with the winner list and the
created count), the zero-picked sys.exit(2) (with exit code and created
count), or a propagated exception. -/
inductive Outcome
  | published : World → List (String × TV) → Nat → Outcome
  | exit2 : World → Nat → Nat → Outcome
  | raised : World → Outcome
deriving DecidableEq

/-- The whole script run (lines 286-360).  Staging is modeled as selecting
all winners and then building the scratch tree; the observable final
states agree with the interleaved per-group copying of the source because
the cleanup handler removes the whole scratch tree on any exception.
sys.exit(2) raises SystemExit, which `except Exception` does not catch, so
on the zero-picked path the scratch tree is left in place. -/
def runScript (w : World) (now : Int) : Outcome :=
  let e := ensureAll now w.tvs
  let tvs1 := e.1
  let created := e.2
  let files := tvs1.filter fun tv => tv.dataFile.isSome
  let g := groupsOf files
  let pub0 : PubState := { w.pub with tmp := some [] }
  match selectAll (sortGroups g.1) with
  | .error _ => .raised ⟨tvs1, { pub0 with tmp := none }⟩
  | .ok winners =>
    let picked := winners.length
    let pub1 := { pub0 with tmp := some (stageEntries winners) }
    if picked = 0 then .exit2 ⟨tvs1, pub1⟩ 2 created
    else .published ⟨tvs1, doSwap pub1⟩ winners created

/-- The observable states of the staging loop: the scratch tree right
after mkdtemp and after each winner is copied in. -/
def stageStates (s0 : PubState) (entries : Tree) : List PubState :=
  (List.range (entries.length + 1)).map fun i =>
    { s0 with tmp := some (entries.take i) }

/-- The observable states of the swap (script lines 343-352), one per
file-system operation. -/
def swapStates (s : PubState) : List PubState :=
  match s.published with
  | some t =>
    [{ s with backup := none },
     { published := none, backup := some t, tmp := s.tmp },
     { published := s.tmp, backup := some t, tmp := none },
     { published := s.tmp, backup := none, tmp := none }]
  | none => [{ published := s.tmp, backup := s.backup, tmp := none }]

/-- Every observable state of the publish phase, staging then swap. -/
def publishTrace (s0 : PubState) (entries : Tree) : List PubState :=
  stageStates s0 entries ++ swapStates { s0 with tmp := some entries }

/-- The `except Exception` cleanup handler (script lines 353-360): remove
the scratch tree, leave everything else alone, re-raise. -/
def cleanupHandler (s : PubState) : PubState :=
  { s with tmp := none }

/-- The final state when an exception interrupts staging after k
operations: the handler runs on the k-th observable staging state, whose
scratch tree holds the first k staged entries. -/
def failDuringStaging (s0 : PubState) (entries : Tree) (k : Nat) : PubState :=
  cleanupHandler { s0 with tmp := some (entries.take k) }

/-- The documented comparison key of a candidate: primary date instant,
then data.json file mtime. -/
def keyI (tv : TV) : Int × Int :=
  ((dtPrimary tv).instant, tv.mtimeFile)

/-- Strict lexicographic order on comparison keys (date descending means
the larger key wins). -/
def ltKey (x y : Int × Int) : Prop :=
  x.1 < y.1 ∨ (x.1 = y.1 ∧ x.2 < y.2)

/-- Reflexive lexicographic order on comparison keys. -/
def leKey (x y : Int × Int) : Prop :=
  x.1 < y.1 ∨ (x.1 = y.1 ∧ x.2 ≤ y.2)

instance (x y : Int × Int) : Decidable (ltKey x y) :=
  inferInstanceAs (Decidable (x.1 < y.1 ∨ (x.1 = y.1 ∧ x.2 < y.2)))

instance (x y : Int × Int) : Decidable (leKey x y) :=
  inferInstanceAs (Decidable (x.1 < y.1 ∨ (x.1 = y.1 ∧ x.2 ≤ y.2)))

/-- The pure content of one selection-loop iteration: replace the running
best exactly when the candidate key is strictly greater. -/
def stepPure (b c : TV) : TV :=
  if ltKey (keyI b) (keyI c) then c else b

/-- firstParsed distributes over append: the first stage that parses
wins. -/
theorem firstParsed_append (a b : List (Option ModsDoc)) :
    firstParsed (a ++ b) =
      match firstParsed a with
      | some m => some m
      | none => firstParsed b := by
  induction a with
  | nil => rfl
  | cons h t ih => cases h <;> simp [firstParsed, ih]

/-- C3: the code does not treat a timezone-naive parse result as UTC.
parse_date on the date-only string 2023-05-01 yields a naive value
(aware = false), and the selection-loop order comparison of that value
against a timezone-aware modification time raises TypeError, modeled as
Except.error. -/
theorem parse_date_naive_vs_aware_raises :
    parse_date (some "2023-05-01") = some ⟨1682899200, false⟩ ∧
    pyGT ⟨1682899200, false⟩ (mtime_dt 1685577600) = .error () := by decide

/-- C7 counterexample: a text-version directory whose only
descriptor-source document lives inside an archive member.  The four-stage
search of the claim (specFindMods, stage (d) included) finds the document;
the code search (codeFindMods) finds nothing, because ensure_data_jsons
has no archive stage. -/
theorem findMods_archive_counter :
    codeFindMods ⟨none, [], [], [some ⟨some "2023-01-02", none, []⟩]⟩ = none ∧
    specFindMods ⟨none, [], [], [some ⟨some "2023-01-02", none, []⟩]⟩ =
      some ⟨some "2023-01-02", none, []⟩ := by decide

/-- C7 (amended): the synthesizer searches, in order, (a) the direct
sibling mods.xml, (b) mods.xml one level down inside sub-directories,
(c) any mods.xml found recursively; the first successful parse wins and
archive members are never consulted. -/
theorem findMods_three_stages (t : TVSearch) (l : List (Option ModsDoc)) :
    codeFindMods t =
      firstParsed ((match t.direct with | some r => [r] | none => []) ++
        t.nested ++ t.recursive) ∧
    codeFindMods { t with archived := l } = codeFindMods t := by
  obtain ⟨dir, nst, rc, ar⟩ := t
  refine ⟨?_, rfl⟩
  rcases dir with - | - | m <;>
    simp [codeFindMods, firstParsed, firstParsed_append]

/-- C8: the zero-picked abort path.  sys.exit(2) raises SystemExit, which
the except-Exception cleanup handler does not catch, so the run ends with
exit code 2 while the scratch directory (tmp = some []) is left in place
instead of being removed. -/
theorem zero_picked_leaves_scratch :
    runScript ⟨[], ⟨some [("118/bills/hr/hr1/data.json", none)], none, none⟩⟩ 0 =
      .exit2 ⟨[], ⟨some [("118/bills/hr/hr1/data.json", none)], none, some []⟩⟩
        2 0 := by decide

/-- C4: when the run exits via the zero-picked abort it reports exit code
2 and has not created, modified, or replaced the published tree or its
backup; and the publish step runs only with a non-empty winner list. -/
theorem zero_picked_aborts_before_publish (w : World) (now : Int) :
    (∀ w' code created, runScript w now = .exit2 w' code created →
        code = 2 ∧ w'.pub.published = w.pub.published ∧
          w'.pub.backup = w.pub.backup) ∧
    (∀ w' ws created, runScript w now = .published w' ws created →
        ws ≠ []) := by
  constructor
  · intro w' code created h
    simp only [runScript] at h
    split at h
    · exact absurd h (by simp)
    · split at h
      · simp only [Outcome.exit2.injEq] at h
        obtain ⟨hw, hc, -⟩ := h
        exact ⟨hc.symm, by rw [← hw], by rw [← hw]⟩
      · exact absurd h (by simp)
  · intro w' ws created h
    simp only [runScript] at h
    split at h
    · exact absurd h (by simp)
    · rename_i winners heq
      split at h
      · exact absurd h (by simp)
      · rename_i hlen
        simp only [Outcome.published.injEq] at h
        obtain ⟨-, hws, -⟩ := h
        rw [← hws]
        intro hnil
        exact hlen (by rw [hnil]; rfl)

/-- C4 witness: a run over an empty input tree exits with code 2 and the
published tree and backup slots are exactly as they were. -/
theorem zero_picked_aborts_before_publish_witness :
    2 = 2 ∧
    (⟨[], ⟨some [("x", none)], some [("y", none)], some []⟩⟩ : World).pub.published =
      (⟨[], ⟨some [("x", none)], some [("y", none)], none⟩⟩ : World).pub.published ∧
    (⟨[], ⟨some [("x", none)], some [("y", none)], some []⟩⟩ : World).pub.backup =
      (⟨[], ⟨some [("x", none)], some [("y", none)], none⟩⟩ : World).pub.backup :=
  (zero_picked_aborts_before_publish
      ⟨[], ⟨some [("x", none)], some [("y", none)], none⟩⟩ 0).1
    ⟨[], ⟨some [("x", none)], some [("y", none)], some []⟩⟩ 2 0 (by decide)

/-- C1 counterexample: on the happy path itself, between the two renames
of the swap, the published location holds neither the complete previous
tree nor the complete new tree (it is absent). -/
theorem swap_window_counter :
    ∃ s ∈ publishTrace ⟨some [("118/bills/hr/hr1/data.json", none)], none, none⟩
        [("118/bills/hr/hr2/data.json", none)],
      s.published ≠ some [("118/bills/hr/hr1/data.json", none)] ∧
      s.published ≠ some [("118/bills/hr/hr2/data.json", none)] := by
  refine ⟨⟨none, some [("118/bills/hr/hr1/data.json", none)],
      some [("118/bills/hr/hr2/data.json", none)]⟩, by decide, by decide⟩

/-- C1 (amended): at every observable instant of the publish phase the
published location holds the complete previous tree, the complete new
tree, or nothing (the window between the two renames of the swap) — never
a mixture; and when staging fails after any number of operations, the
cleanup handler leaves the previous published tree byte-for-byte unchanged
and removes the scratch tree. -/
theorem publish_trace_states (s0 : PubState) (entries : Tree) :
    (∀ s ∈ publishTrace s0 entries,
        s.published = s0.published ∨ s.published = some entries ∨
          s.published = none) ∧
    ∀ k : Nat, (failDuringStaging s0 entries k).published = s0.published ∧
      (failDuringStaging s0 entries k).tmp = none := by
  obtain ⟨pub, bak, tm⟩ := s0
  constructor
  · intro s hs
    simp only [publishTrace, stageStates, swapStates, List.mem_append,
      List.mem_map, List.mem_range] at hs
    cases pub with
    | none =>
      rcases hs with ⟨i, -, rfl⟩ | hs
      · left; rfl
      · simp only [List.mem_singleton] at hs
        subst hs
        right; left; rfl
    | some t =>
      rcases hs with ⟨i, -, rfl⟩ | hs
      · left; rfl
      · simp only [List.mem_cons, List.mem_singleton, List.not_mem_nil,
          or_false] at hs
        rcases hs with rfl | rfl | rfl | rfl
        · left; rfl
        · right; right; rfl
        · right; left; rfl
        · right; left; rfl
  · intro k
    exact ⟨rfl, rfl⟩

/-- C1 witness: the amended invariant applied to a concrete trace state
(the one between the two renames, where the published location is
absent). -/
theorem publish_trace_states_witness :
    (⟨none, some [("a", none)], some [("b", none)]⟩ : PubState).published =
      (⟨some [("a", none)], none, none⟩ : PubState).published ∨
    (⟨none, some [("a", none)], some [("b", none)]⟩ : PubState).published =
      some [("b", none)] ∨
    (⟨none, some [("a", none)], some [("b", none)]⟩ : PubState).published =
      none :=
  (publish_trace_states ⟨some [("a", none)], none, none⟩ [("b", none)]).1
    ⟨none, some [("a", none)], some [("b", none)]⟩ (by decide)

theorem leKey_refl (x : Int × Int) : leKey x x := by
  unfold leKey; omega

theorem leKey_trans {x y z : Int × Int} (h1 : leKey x y) (h2 : leKey y z) :
    leKey x z := by
  unfold leKey at *; omega

theorem leKey_ltKey_trans {x y z : Int × Int} (h1 : leKey x y)
    (h2 : ltKey y z) : ltKey x z := by
  unfold leKey ltKey at *; omega

theorem ltKey_leKey {x y : Int × Int} (h : ltKey x y) : leKey x y := by
  unfold leKey ltKey at *; omega

theorem not_ltKey_leKey {x y : Int × Int} (h : ¬ ltKey x y) : leKey y x := by
  unfold leKey ltKey at *; omega

/-- With candidates of equal awareness, one selection-loop iteration never
raises and computes exactly the pure strict-improvement step. -/
theorem selStep_uniform (b c : TV)
    (h : (dtPrimary c).aware = (dtPrimary b).aware) :
    selStep (some (dtPrimary b, mtime_dt b.mtimeFile, b)) c =
      .ok (some (dtPrimary (stepPure b c), mtime_dt (stepPure b c).mtimeFile,
        stepPure b c)) := by
  have e1 : pyGT (dtPrimary c) (dtPrimary b) =
      .ok (decide ((dtPrimary b).instant < (dtPrimary c).instant)) := by
    simp [pyGT, h]
  have e2 : pyEQ (dtPrimary c) (dtPrimary b) =
      ((dtPrimary c).instant == (dtPrimary b).instant) := by
    simp [pyEQ, h]
  have e3 : pyGT (mtime_dt c.mtimeFile) (mtime_dt b.mtimeFile) =
      .ok (decide (b.mtimeFile < c.mtimeFile)) := by
    simp [pyGT, mtime_dt]
  simp only [selStep, e1, e2, e3]
  rcases lt_trichotomy (dtPrimary b).instant (dtPrimary c).instant with
    h1 | h1 | h1
  · have hs : stepPure b c = c :=
      if_pos (show ltKey (keyI b) (keyI c) from Or.inl h1)
    simp [h1, hs]
  · have hlt : ¬ (dtPrimary b).instant < (dtPrimary c).instant := by omega
    rcases lt_or_ge b.mtimeFile c.mtimeFile with h3 | h3
    · have hcond : ltKey (keyI b) (keyI c) := by
        simp only [ltKey, keyI]
        omega
      have hs : stepPure b c = c := if_pos hcond
      simp [hlt, h1, h3, hs]
    · have hcond : ¬ ltKey (keyI b) (keyI c) := by
        simp only [ltKey, keyI]
        omega
      have hs : stepPure b c = b := if_neg hcond
      have h3n : ¬ b.mtimeFile < c.mtimeFile := by omega
      simp [hlt, h1, h3n, hs]
  · have hlt : ¬ (dtPrimary b).instant < (dtPrimary c).instant := by omega
    have hne : ¬ (dtPrimary c).instant = (dtPrimary b).instant := by omega
    have hcond : ¬ ltKey (keyI b) (keyI c) := by
      simp only [ltKey, keyI]
      omega
    have hs : stepPure b c = b := if_neg hcond
    simp [hlt, hne, hs]

/-- With a group of uniform awareness the whole selection loop never
raises and folds the pure step. -/
theorem selLoop_pure (a : Bool) (g : List TV) :
    ∀ b : TV, (∀ c ∈ g, (dtPrimary c).aware = a) →
      (dtPrimary b).aware = a →
      g.foldlM selStep (some (dtPrimary b, mtime_dt b.mtimeFile, b)) =
        .ok (some (dtPrimary (g.foldl stepPure b),
          mtime_dt (g.foldl stepPure b).mtimeFile, g.foldl stepPure b)) := by
  induction g with
  | nil => intro b _ _; rfl
  | cons c rest ih =>
    intro b hg hb
    have hc : (dtPrimary c).aware = a := hg c (by simp)
    have hstep : (dtPrimary (stepPure b c)).aware = a := by
      unfold stepPure; split <;> assumption
    rw [List.foldlM_cons, selStep_uniform b c (by rw [hc, hb]),
      List.foldl_cons]
    show Except.bind _ _ = _
    rw [Except.bind]
    exact ih (stepPure b c) (fun x hx => hg x (by simp [hx])) hstep

/-- The pure fold computes the first-encountered maximum: it is an element
of the list, every element is ≤ it, and every strictly earlier element is
strictly below it. -/
theorem foldl_stepPure_spec (b : TV) (g : List TV) :
    ∃ (i : Nat) (hi : i < (b :: g).length),
      (b :: g)[i] = g.foldl stepPure b ∧
      (∀ x ∈ b :: g, leKey (keyI x) (keyI (g.foldl stepPure b))) ∧
      ∀ (j : Nat) (hj : j < (b :: g).length), j < i →
        ltKey (keyI ((b :: g)[j])) (keyI (g.foldl stepPure b)) := by
  induction g using List.reverseRecOn with
  | nil =>
    refine ⟨0, by simp, rfl, ?_, ?_⟩
    · intro x hx
      simp only [List.mem_singleton] at hx
      subst hx
      exact leKey_refl _
    · intro j hj hj0
      omega
  | append_singleton l x ih =>
    obtain ⟨i, hi, hget, hge, hlt⟩ := ih
    have hfold : (l ++ [x]).foldl stepPure b = stepPure (l.foldl stepPure b) x := by
      rw [List.foldl_append, List.foldl_cons, List.foldl_nil]
    have hcons : b :: (l ++ [x]) = (b :: l) ++ [x] := rfl
    by_cases hx : ltKey (keyI (l.foldl stepPure b)) (keyI x)
    · -- the appended candidate strictly improves: it becomes the winner,
      -- and everything before it is strictly below it
      have hw : (l ++ [x]).foldl stepPure b = x := by
        rw [hfold]; exact if_pos hx
      have hlen : (b :: l).length < (b :: (l ++ [x])).length := by
        simp only [List.length_cons, List.length_append]
        omega
      refine ⟨(b :: l).length, hlen, ?_, ?_, ?_⟩
      · rw [hw]
        exact List.getElem_concat_length (b :: l) x _ rfl _
      · intro y hy
        rw [hw]
        rw [hcons, List.mem_append] at hy
        rcases hy with hy | hy
        · exact ltKey_leKey (leKey_ltKey_trans (hge y hy) hx)
        · simp only [List.mem_singleton] at hy
          subst hy
          exact leKey_refl _
      · intro j hj hj0
        rw [hw]
        have hjl : j < (b :: l).length := hj0
        have hgj : (b :: (l ++ [x]))[j] = (b :: l)[j] :=
          List.getElem_append_left hjl
        rw [hgj]
        exact leKey_ltKey_trans (hge _ (List.getElem_mem hjl)) hx
    · -- no improvement: the previous winner stays, at its old index
      have hw : (l ++ [x]).foldl stepPure b = l.foldl stepPure b := by
        rw [hfold]; exact if_neg hx
      have hil : i < (b :: l).length := hi
      have hlen : i < (b :: (l ++ [x])).length := by
        simp only [List.length_cons, List.length_append] at hil ⊢
        omega
      refine ⟨i, hlen, ?_, ?_, ?_⟩
      · rw [hw]
        have hgi : (b :: (l ++ [x]))[i] = (b :: l)[i] :=
          List.getElem_append_left hil
        rw [hgi]
        exact hget
      · intro y hy
        rw [hw]
        rw [hcons, List.mem_append] at hy
        rcases hy with hy | hy
        · exact hge y hy
        · simp only [List.mem_singleton] at hy
          subst hy
          exact not_ltKey_leKey hx
      · intro j hj hj0
        have hjl : j < (b :: l).length := by omega
        have hgj : (b :: (l ++ [x]))[j] = (b :: l)[j] :=
          List.getElem_append_left hjl
        rw [hw, hgj]
        exact hlt j hjl hj0

/-- Assembled selection property for a non-empty group of uniform
awareness: selGroup succeeds with the first-encountered maximum. -/
theorem selGroup_spec (g : List TV) (a : Bool) (hne : g ≠ [])
    (hA : ∀ c ∈ g, (dtPrimary c).aware = a) :
    ∃ (w : TV) (i : Nat) (hi : i < g.length),
      selGroup g = .ok (some w) ∧ g[i] = w ∧
      (∀ c ∈ g, leKey (keyI c) (keyI w)) ∧
      ∀ (j : Nat) (hj : j < g.length), j < i → ltKey (keyI (g[j])) (keyI w) := by
  obtain ⟨b, rest, rfl⟩ := List.exists_cons_of_ne_nil hne
  have hb : (dtPrimary b).aware = a := hA b (by simp)
  have hrest : ∀ c ∈ rest, (dtPrimary c).aware = a := fun c hc =>
    hA c (by simp [hc])
  obtain ⟨i, hi, hget, hge, hlt⟩ := foldl_stepPure_spec b rest
  refine ⟨rest.foldl stepPure b, i, hi, ?_, hget, hge, hlt⟩
  have hb0 : selStep none b = .ok (some (dtPrimary b, mtime_dt b.mtimeFile, b)) :=
    rfl
  have hfold : (b :: rest).foldlM selStep none =
      .ok (some (dtPrimary (rest.foldl stepPure b),
        mtime_dt (rest.foldl stepPure b).mtimeFile, rest.foldl stepPure b)) := by
    rw [List.foldlM_cons, hb0]
    simp only [bind, Except.bind]
    exact selLoop_pure a rest b hrest hb
  unfold selGroup
  rw [hfold]
  rfl

/-- C2 counterexample: a two-candidate group in which one issued date
parses timezone-aware (trailing Z) and the other parses naive (date
only).  The selection loop raises TypeError (Except.error) instead of
keeping a winner, so the claimed property fails for this non-empty
group. -/
theorem selector_mixed_awareness_raises :
    selGroup
      [⟨["data", "118", "bills", "hr", "hr85", "text-versions", "ih"], true,
         some (some ⟨some "2023-07-04T00:00:00Z", none, none, "ih", none, none,
           none, []⟩), 100, 90, ⟨none, [], [], []⟩⟩,
       ⟨["data", "118", "bills", "hr", "hr85", "text-versions", "rh"], true,
         some (some ⟨some "2023-05-01", none, none, "rh", none, none, none,
           []⟩), 200, 95, ⟨none, [], [], []⟩⟩] = .error () := by decide

/-- C2 (amended): for every non-empty bill group whose candidates share
the same timezone-awareness of their effective primary date (so the order
comparisons are defined), the selector keeps exactly one winner, a member
of the group, whose (date, mtime) key is greater than or equal to every
candidate's key under the documented ordering, and every candidate
encountered strictly before the winner has a strictly smaller key — hence
candidates tying on both keys resolve to the first-encountered one. -/
theorem selector_keeps_first_maximum (g : List TV) (a : Bool) (hne : g ≠ [])
    (hA : ∀ c ∈ g, (dtPrimary c).aware = a) :
    ∃ (w : TV) (i : Nat) (hi : i < g.length),
      selGroup g = .ok (some w) ∧ w ∈ g ∧ g[i] = w ∧
      (∀ c ∈ g, leKey (keyI c) (keyI w)) ∧
      ∀ (j : Nat) (hj : j < g.length), j < i →
        ltKey (keyI (g[j])) (keyI w) := by
  obtain ⟨w, i, hi, hsel, hget, hge, hlt⟩ := selGroup_spec g a hne hA
  exact ⟨w, i, hi, hsel, hget ▸ List.getElem_mem hi, hget, hge, hlt⟩

/-- C2 witness: the amended selection property at a concrete three-member
group with uniformly naive dates and a tie on both keys. -/
theorem selector_keeps_first_maximum_witness :
    ∃ (w : TV) (i : Nat)
      (hi : i <
        ([⟨["data", "118", "bills", "hr", "hr85", "text-versions", "ih"], true,
            some (some ⟨some "2023-05-01", none, none, "ih", none, none, none,
              []⟩), 10, 5, ⟨none, [], [], []⟩⟩,
          ⟨["data", "118", "bills", "hr", "hr85", "text-versions", "eh"], true,
            some (some ⟨some "2023-06-01", none, none, "eh", none, none, none,
              []⟩), 20, 15, ⟨none, [], [], []⟩⟩,
          ⟨["data", "118", "bills", "hr", "hr85", "text-versions", "rh"], true,
            some (some ⟨some "2023-06-01", none, none, "rh", none, none, none,
              []⟩), 20, 16, ⟨none, [], [], []⟩⟩] : List TV).length),
      selGroup
        [⟨["data", "118", "bills", "hr", "hr85", "text-versions", "ih"], true,
           some (some ⟨some "2023-05-01", none, none, "ih", none, none, none,
             []⟩), 10, 5, ⟨none, [], [], []⟩⟩,
         ⟨["data", "118", "bills", "hr", "hr85", "text-versions", "eh"], true,
           some (some ⟨some "2023-06-01", none, none, "eh", none, none, none,
             []⟩), 20, 15, ⟨none, [], [], []⟩⟩,
         ⟨["data", "118", "bills", "hr", "hr85", "text-versions", "rh"], true,
           some (some ⟨some "2023-06-01", none, none, "rh", none, none, none,
             []⟩), 20, 16, ⟨none, [], [], []⟩⟩] = .ok (some w) ∧
      w ∈ [⟨["data", "118", "bills", "hr", "hr85", "text-versions", "ih"], true,
             some (some ⟨some "2023-05-01", none, none, "ih", none, none, none,
               []⟩), 10, 5, ⟨none, [], [], []⟩⟩,
           ⟨["data", "118", "bills", "hr", "hr85", "text-versions", "eh"], true,
             some (some ⟨some "2023-06-01", none, none, "eh", none, none, none,
               []⟩), 20, 15, ⟨none, [], [], []⟩⟩,
           ⟨["data", "118", "bills", "hr", "hr85", "text-versions", "rh"], true,
             some (some ⟨some "2023-06-01", none, none, "rh", none, none, none,
               []⟩), 20, 16, ⟨none, [], [], []⟩⟩] ∧
      ([⟨["data", "118", "bills", "hr", "hr85", "text-versions", "ih"], true,
          some (some ⟨some "2023-05-01", none, none, "ih", none, none, none,
            []⟩), 10, 5, ⟨none, [], [], []⟩⟩,
        ⟨["data", "118", "bills", "hr", "hr85", "text-versions", "eh"], true,
          some (some ⟨some "2023-06-01", none, none, "eh", none, none, none,
            []⟩), 20, 15, ⟨none, [], [], []⟩⟩,
        ⟨["data", "118", "bills", "hr", "hr85", "text-versions", "rh"], true,
          some (some ⟨some "2023-06-01", none, none, "rh", none, none, none,
            []⟩), 20, 16, ⟨none, [], [], []⟩⟩] : List TV)[i] = w ∧
      (∀ c ∈ [⟨["data", "118", "bills", "hr", "hr85", "text-versions", "ih"],
                true, some (some ⟨some "2023-05-01", none, none, "ih", none,
                  none, none, []⟩), 10, 5, ⟨none, [], [], []⟩⟩,
              ⟨["data", "118", "bills", "hr", "hr85", "text-versions", "eh"],
                true, some (some ⟨some "2023-06-01", none, none, "eh", none,
                  none, none, []⟩), 20, 15, ⟨none, [], [], []⟩⟩,
              ⟨["data", "118", "bills", "hr", "hr85", "text-versions", "rh"],
                true, some (some ⟨some "2023-06-01", none, none, "rh", none,
                  none, none, []⟩), 20, 16, ⟨none, [], [], []⟩⟩],
          leKey (keyI c) (keyI w)) ∧
      ∀ (j : Nat)
        (hj : j <
          ([⟨["data", "118", "bills", "hr", "hr85", "text-versions", "ih"],
              true, some (some ⟨some "2023-05-01", none, none, "ih", none,
                none, none, []⟩), 10, 5, ⟨none, [], [], []⟩⟩,
            ⟨["data", "118", "bills", "hr", "hr85", "text-versions", "eh"],
              true, some (some ⟨some "2023-06-01", none, none, "eh", none,
                none, none, []⟩), 20, 15, ⟨none, [], [], []⟩⟩,
            ⟨["data", "118", "bills", "hr", "hr85", "text-versions", "rh"],
              true, some (some ⟨some "2023-06-01", none, none, "rh", none,
                none, none, []⟩), 20, 16, ⟨none, [], [], []⟩⟩] :
            List TV).length),
        j < i →
        ltKey (keyI (([⟨["data", "118", "bills", "hr", "hr85",
            "text-versions", "ih"], true, some (some ⟨some "2023-05-01", none,
              none, "ih", none, none, none, []⟩), 10, 5,
            ⟨none, [], [], []⟩⟩,
          ⟨["data", "118", "bills", "hr", "hr85", "text-versions", "eh"], true,
            some (some ⟨some "2023-06-01", none, none, "eh", none, none, none,
              []⟩), 20, 15, ⟨none, [], [], []⟩⟩,
          ⟨["data", "118", "bills", "hr", "hr85", "text-versions", "rh"], true,
            some (some ⟨some "2023-06-01", none, none, "rh", none, none, none,
              []⟩), 20, 16, ⟨none, [], [], []⟩⟩] : List TV)[j])) (keyI w) :=
  selector_keeps_first_maximum _ false (by decide) (by decide)

/-- C6 counterexample: a two-candidate group where one descriptor is
malformed (its date degrades to the timezone-aware mtime) and the other
has a parseable naive date: the group raises TypeError and yields no
winner, so not every non-empty group yields a winner. -/
theorem group_with_malformed_and_dated_raises :
    selGroup
      [⟨["data", "117", "bills", "s", "s10", "text-versions", "is"], true,
         some none, 300, 290, ⟨none, [], [], []⟩⟩,
       ⟨["data", "117", "bills", "s", "s10", "text-versions", "es"], true,
         some (some ⟨some "2023-05-01", none, none, "es", none, none, none,
           []⟩), 310, 295, ⟨none, [], [], []⟩⟩] = .error () := by decide

/-- C6 (amended): metadata extraction never raises — a missing, malformed
or unparseable date degrades to the file mtime — so every single-candidate
group yields a winner, whatever its descriptor looks like; and every
non-empty group whose candidates share timezone-awareness of their
effective dates yields a winner. -/
theorem sole_candidate_always_wins :
    (∀ tv : TV, selGroup [tv] = .ok (some tv)) ∧
    ∀ (g : List TV) (a : Bool), g ≠ [] →
      (∀ c ∈ g, (dtPrimary c).aware = a) →
      ∃ w, selGroup g = .ok (some w) ∧ w ∈ g := by
  constructor
  · intro tv; rfl
  · intro g a hne hA
    obtain ⟨w, i, hi, hsel, hget, -, -⟩ := selGroup_spec g a hne hA
    exact ⟨w, hsel, hget ▸ List.getElem_mem hi⟩

/-- C6 witness: a singleton group whose sole candidate carries an
unparseable date string still yields that candidate as winner. -/
theorem sole_candidate_always_wins_witness :
    ∃ w, selGroup
        [⟨["data", "116", "bills", "hr", "hr1", "text-versions", "ih"], true,
           some (some ⟨some "not-a-date", none, none, "ih", none, none, none,
             []⟩), 42, 40, ⟨none, [], [], []⟩⟩] = .ok (some w) ∧
      w ∈ [⟨["data", "116", "bills", "hr", "hr1", "text-versions", "ih"], true,
             some (some ⟨some "not-a-date", none, none, "ih", none, none, none,
               []⟩), 42, 40, ⟨none, [], [], []⟩⟩] :=
  sole_candidate_always_wins.2 _ true (by decide) (by decide)

/-- Every membership splits a list at the first occurrence. -/
theorem exists_first_decomp {a : String} {l : List String} (h : a ∈ l) :
    ∃ pre rest, l = pre ++ a :: rest ∧ a ∉ pre ∧ pre.length = l.indexOf a := by
  induction l with
  | nil => cases h
  | cons x xs ih =>
    by_cases hx : x = a
    · subst hx
      exact ⟨[], xs, rfl, by simp, by simp⟩
    · have hmem : a ∈ xs := by
        rcases List.mem_cons.1 h with h | h
        · exact absurd h.symm hx
        · exact h
      obtain ⟨pre, rest, heq, hnot, hlen⟩ := ih hmem
      refine ⟨x :: pre, rest, by rw [heq]; rfl, ?_, ?_⟩
      · intro hmem2
        rcases List.mem_cons.1 hmem2 with h2 | h2
        · exact hx h2.symm
        · exact hnot h2
      · rw [List.indexOf_cons_ne _ hx, List.length_cons, hlen]

/-- The index of the anchor in a first-occurrence decomposition. -/
theorem indexOf_first_decomp {a : String} (pre rest : List String)
    (hnot : a ∉ pre) : (pre ++ a :: rest).indexOf a = pre.length := by
  rw [List.indexOf_append_of_not_mem hnot, List.indexOf_cons_self]
  omega

/-- key_from_path on a path decomposed at the first "bills" segment with a
predecessor and two successors: the key is built from those segments. -/
theorem key_from_path_first_occurrence (pre : List String) (t b : String)
    (post : List String) (h : pre ≠ []) (hnot : "bills" ∉ pre) :
    key_from_path (pre ++ "bills" :: t :: b :: post) =
      some (pre.getLast h ++ "/" ++ t ++ "/" ++ b) := by
  have hmem : "bills" ∈ pre ++ "bills" :: t :: b :: post := by simp
  have hidx : (pre ++ "bills" :: t :: b :: post).indexOf "bills" = pre.length :=
    indexOf_first_decomp pre _ hnot
  have hpos : 0 < pre.length := List.length_pos.2 h
  unfold key_from_path
  rw [if_pos hmem]
  simp only [hidx]
  rw [if_pos ⟨hpos, by
    simp only [List.length_append, List.length_cons]
    omega⟩]
  have h1 : (pre ++ "bills" :: t :: b :: post).getD (pre.length - 1) "" =
      pre.getLast h := by
    rw [List.getD_append _ _ _ _ (by omega),
      List.getD_eq_getElem _ _ (by omega), List.getLast_eq_getElem]
  have h2 : (pre ++ "bills" :: t :: b :: post).getD (pre.length + 1) "" = t := by
    rw [List.getD_append_right _ _ _ _ (by omega)]
    simp
  have h3 : (pre ++ "bills" :: t :: b :: post).getD (pre.length + 2) "" = b := by
    rw [List.getD_append_right _ _ _ _ (by omega)]
    simp
  rw [h1, h2, h3]

/-- key_from_path fails exactly when no first-occurrence decomposition
with a predecessor and two successors exists. -/
theorem key_from_path_none (parts : List String)
    (hnex : ¬ ∃ (pre : List String) (t b : String) (post : List String),
        parts = pre ++ "bills" :: t :: b :: post ∧ "bills" ∉ pre ∧ pre ≠ []) :
    key_from_path parts = none := by
  by_cases hmem : "bills" ∈ parts
  · obtain ⟨pre, rest, heq, hnot, hlen⟩ := exists_first_decomp hmem
    have hidx : parts.indexOf "bills" = pre.length := hlen.symm
    unfold key_from_path
    rw [if_pos hmem]
    simp only [hidx]
    rw [if_neg]
    intro hcond
    obtain ⟨hge, hlt⟩ := hcond
    have hne : pre ≠ [] := by
      intro hnil
      rw [hnil] at hge
      simp at hge
    have hlength : parts.length = pre.length + rest.length + 1 := by
      rw [heq]
      simp only [List.length_append, List.length_cons]
      omega
    match rest, hlength with
    | [], hlength => simp at hlength; omega
    | [t], hlength => simp at hlength; omega
    | t :: b :: post, _ =>
      exact hnex ⟨pre, t, b, post, heq, hnot, hne⟩
  · unfold key_from_path
    rw [if_neg hmem]

/-- C5: for every path whose first "bills" segment has at least one
segment before it and two after it, key_from_path returns exactly
predecessor/first-successor/second-successor; for every other path it
returns the failure value none (the function is total, so no exception
escapes). -/
theorem key_from_path_spec (parts : List String) :
    (∀ (pre : List String) (t b : String) (post : List String) (h : pre ≠ []),
        parts = pre ++ "bills" :: t :: b :: post → "bills" ∉ pre →
        key_from_path parts = some (pre.getLast h ++ "/" ++ t ++ "/" ++ b)) ∧
    ((¬ ∃ (pre : List String) (t b : String) (post : List String),
        parts = pre ++ "bills" :: t :: b :: post ∧ "bills" ∉ pre ∧ pre ≠ []) →
      key_from_path parts = none) := by
  constructor
  · intro pre t b post h heq hnot
    rw [heq]
    exact key_from_path_first_occurrence pre t b post h hnot
  · exact key_from_path_none parts

/-- C5 witness: the classifier on a well-shaped concrete path. -/
theorem key_from_path_spec_witness :
    key_from_path ["data", "118", "bills", "hr", "hr85", "text-versions",
      "ih", "data.json"] = some ("118" ++ "/" ++ "hr" ++ "/" ++ "hr85") :=
  (key_from_path_spec _).1 ["data", "118"] "hr" "hr85"
    ["text-versions", "ih", "data.json"] (by decide) rfl (by decide)

/-- C10: both the path classifier and the bill-id synthesizer anchor on
the first occurrence of a "bills" segment: on any path decomposed at that
first occurrence, key_from_path keys on the segments around it, and
synthesize_bill_id_from_path computes its core from the same segments
(congress = the segment before, bill type = the segment after, bill
directory and digit-bearing extras = the following segments), regardless
of any deeper "bills" segment. -/
theorem anchors_on_first_bills (pre : List String) (t b : String)
    (post : List String) (h : pre ≠ []) (hnot : "bills" ∉ pre) :
    key_from_path (pre ++ "bills" :: t :: b :: post) =
      some (pre.getLast h ++ "/" ++ t ++ "/" ++ b) ∧
    synthesize_bill_id_from_path (pre ++ "bills" :: t :: b :: post) =
      synthCore (pre.getLast h) (lowerStr t) (lowerStr b) (b :: post.take 3) := by
  refine ⟨key_from_path_first_occurrence pre t b post h hnot, ?_⟩
  have hmem : "bills" ∈ pre ++ "bills" :: t :: b :: post := by simp
  have hidx : (pre ++ "bills" :: t :: b :: post).indexOf "bills" = pre.length :=
    indexOf_first_decomp pre _ hnot
  have hpos : 0 < pre.length := List.length_pos.2 h
  unfold synthesize_bill_id_from_path
  rw [if_pos hmem]
  simp only [hidx]
  rw [if_neg (by
    simp only [List.length_append, List.length_cons]
    omega)]
  have h1 : (pre ++ "bills" :: t :: b :: post).getD (pre.length - 1) "" =
      pre.getLast h := by
    rw [List.getD_append _ _ _ _ (by omega),
      List.getD_eq_getElem _ _ (by omega), List.getLast_eq_getElem]
  have h2 : (pre ++ "bills" :: t :: b :: post).getD (pre.length + 1) "" = t := by
    rw [List.getD_append_right _ _ _ _ (by omega)]
    simp
  have h3 : (pre ++ "bills" :: t :: b :: post).getD (pre.length + 2) "" = b := by
    rw [List.getD_append_right _ _ _ _ (by omega)]
    simp
  have h4 : (pre ++ "bills" :: t :: b :: post).drop (pre.length + 2) =
      b :: post := by
    have hsplit : pre ++ "bills" :: t :: b :: post =
        (pre ++ ["bills", t]) ++ b :: post := by simp
    rw [hsplit, List.drop_left' (by simp [List.length_append])]
  rw [h1, h2, h3, h4]
  rfl

/-- C10 witness: a path whose leading portion contains a "bills" segment:
the key and the synthesized id come from the segments around that first
occurrence, not from the deeper bill-level "bills" segment. -/
theorem anchors_on_first_bills_witness :
    key_from_path (["srv"] ++ "bills" :: "data" :: "118" ::
        ["bills", "hr", "hr85", "text-versions", "ih"]) =
      some ((["srv"] : List String).getLast (by decide) ++ "/" ++ "data" ++
        "/" ++ "118") ∧
    synthesize_bill_id_from_path (["srv"] ++ "bills" :: "data" :: "118" ::
        ["bills", "hr", "hr85", "text-versions", "ih"]) =
      synthCore ((["srv"] : List String).getLast (by decide)) (lowerStr "data")
        (lowerStr "118") ("118" :: (["bills", "hr", "hr85", "text-versions",
          "ih"] : List String).take 3) :=
  anchors_on_first_bills ["srv"] "data" "118"
    ["bills", "hr", "hr85", "text-versions", "ih"] (by decide) (by decide)

/-- A second ensure pass over an already-ensured directory is the
identity and creates nothing. -/
theorem ensureOne_stable (now now2 : Int) (tv : TV) :
    ensureOne now2 (ensureOne now tv).1 = ((ensureOne now tv).1, 0) := by
  by_cases h : tv.eligible ∧ tv.dataFile = none
  · unfold ensureOne
    rw [if_pos h, if_neg (by simp)]
  · unfold ensureOne
    rw [if_neg h, if_neg h]

/-- ensure_data_jsons is idempotent: the second run over the output of the
first changes nothing and creates zero descriptors. -/
theorem ensureAll_stable (now now2 : Int) (tvs : List TV) :
    ensureAll now2 (ensureAll now tvs).1 = ((ensureAll now tvs).1, 0) := by
  unfold ensureAll
  simp only [List.map_map, Prod.mk.injEq]
  refine ⟨?_, ?_⟩
  · apply List.map_congr_left
    intro tv _
    show (ensureOne now2 (ensureOne now tv).1).1 = (ensureOne now tv).1
    rw [ensureOne_stable]
  · apply List.sum_eq_zero
    intro x hx
    simp only [List.mem_map] at hx
    obtain ⟨tv, -, rfl⟩ := hx
    show (ensureOne now2 (ensureOne now tv).1).2 = 0
    rw [ensureOne_stable]

/-- C9: re-running the pipeline on the world a successful run produced,
with unchanged descriptors and file timestamps, synthesizes zero new
descriptors, selects exactly the same winners, and publishes the
byte-identical tree (the published slot of the final state equals the
first run's published slot). -/
theorem rerun_idempotent (w : World) (n n2 : Int) (w1 : World)
    (ws : List (String × TV)) (c : Nat)
    (h : runScript w n = .published w1 ws c) :
    runScript w1 n2 = .published ⟨w1.tvs, ⟨w1.pub.published, none, none⟩⟩ ws 0 := by
  obtain ⟨tvs0, pub0, bak0, tmp0⟩ := w
  simp only [runScript] at h
  split at h
  · exact absurd h (by simp)
  · rename_i winners heq
    split at h
    · exact absurd h (by simp)
    · rename_i hlen
      simp only [Outcome.published.injEq] at h
      obtain ⟨hw1, hws, -⟩ := h
      subst hw1
      subst hws
      simp only [runScript, ensureAll_stable, heq]
      rw [if_neg hlen]
      cases pub0 <;> rfl

/-- C9 witness: the second run over the concrete published world of a
one-bill first run republishes the identical tree with zero creations. -/
theorem rerun_idempotent_witness :
    runScript
      ⟨[⟨["data", "118", "bills", "hr", "hr85", "text-versions", "ih"], true,
         some (some ⟨some "2023-05-01", none, none, "ih", none, none, none,
           []⟩), 100, 90, ⟨none, [], [], []⟩⟩],
        ⟨some [("118/bills/hr/hr85/data.json",
                some ⟨some "2023-05-01", none, none, "ih", none, none, none,
                  []⟩)], none, none⟩⟩ 11 =
    .published
      ⟨[⟨["data", "118", "bills", "hr", "hr85", "text-versions", "ih"], true,
         some (some ⟨some "2023-05-01", none, none, "ih", none, none, none,
           []⟩), 100, 90, ⟨none, [], [], []⟩⟩],
        ⟨some [("118/bills/hr/hr85/data.json",
                some ⟨some "2023-05-01", none, none, "ih", none, none, none,
                  []⟩)], none, none⟩⟩
      [("118/hr/hr85",
        ⟨["data", "118", "bills", "hr", "hr85", "text-versions", "ih"], true,
         some (some ⟨some "2023-05-01", none, none, "ih", none, none, none,
           []⟩), 100, 90, ⟨none, [], [], []⟩⟩)] 0 :=
  rerun_idempotent
    ⟨[⟨["data", "118", "bills", "hr", "hr85", "text-versions", "ih"], true,
       some (some ⟨some "2023-05-01", none, none, "ih", none, none, none,
         []⟩), 100, 90, ⟨none, [], [], []⟩⟩], ⟨none, none, none⟩⟩ 7 11
    ⟨[⟨["data", "118", "bills", "hr", "hr85", "text-versions", "ih"], true,
       some (some ⟨some "2023-05-01", none, none, "ih", none, none, none,
         []⟩), 100, 90, ⟨none, [], [], []⟩⟩],
      ⟨some [("118/bills/hr/hr85/data.json",
              some ⟨some "2023-05-01", none, none, "ih", none, none, none,
                []⟩)], none, none⟩⟩
    [("118/hr/hr85",
      ⟨["data", "118", "bills", "hr", "hr85", "text-versions", "ih"], true,
       some (some ⟨some "2023-05-01", none, none, "ih", none, none, none,
         []⟩), 100, 90, ⟨none, [], [], []⟩⟩)] 0 (by decide)

end LBT
